import Mathlib

/-!
Verification of the Kernel-Based-Sandbox repository.

This file gives a shallow embedding of the three components the claims
are about, each translated from the corresponding source file:

* the runtime enforcement engine (`src/kernel-module/libcallsandbox.c`):
  edges, frontier bitsets (modelled as `Finset ℕ`), ε-closure, the step
  routine `advance_frontier`, the install path of `sandbox_ioctl`, and
  the kprobe handler `handler_pre`;
* the LLVM pass (`src/llvm-pass/src/LibCallPass.cpp` with
  `include/Policy/LibCallGraph.h`): per-function graph extraction, the
  identifier assignment and instrumentation loop, and the policy JSON
  serializer `PolicyJSON::serialize`;
* the userland policy loader (`src/unnamed/part_000`): the string-scanning
  artifact parser `extract_graph_edges` and the exit-code behaviour of
  `main` around it.

Heap allocations whose success the C code branches on are made explicit
through boolean oracles (`AllocOracle`, and a `Bool` argument of
`advance_frontier`): `true` models a successful allocation.
-/

namespace Sandbox

/-! ## Enforcement engine (src/kernel-module/libcallsandbox.c) -/

/-- Model of `struct edge` (libcallsandbox.c lines 25-30): `src`/`dst` are
`u32` node indices, `match_id` is the `s32` identifier a non-ε edge
consumes, `is_epsilon` marks ε edges. -/
structure CEdge where
  src : Nat
  dst : Nat
  match_id : Int
  is_epsilon : Bool
deriving DecidableEq

/-- One pass of the `do`-`while` body of `epsilon_closure` (lines 94-105):
the loop walks the edge array once and sets `dst` for every ε edge whose
`src` is currently active.  The C pass reads the bitmap it is mutating,
so additions made earlier in the pass are visible to later edges; the
`foldl` accumulator models exactly that. -/
def epsPass (es : List CEdge) (F : Finset ℕ) : Finset ℕ :=
  es.foldl (fun acc e => if e.is_epsilon ∧ e.src ∈ acc then insert e.dst acc else acc) F

/-- The `do`-`while` loop of `epsilon_closure`, with an explicit fuel:
the loop repeats while the pass changed the bitmap (`changed`), which is
the case exactly while `epsPass F ≠ F`. -/
def closureIter (es : List CEdge) : Nat → Finset ℕ → Finset ℕ
  | 0, F => F
  | n + 1, F =>
    let F' := epsPass es F
    if F' = F then F else closureIter es n F'

/-- `epsilon_closure` (lines 91-106).  The C loop terminates because each
productive pass adds at least one ε-edge destination, of which there are
at most `es.length`; fuel `es.length + 1` therefore reaches the fixed
point (proved in `epsPass_closure_fix`). -/
def epsilon_closure (es : List CEdge) (F : Finset ℕ) : Finset ℕ :=
  closureIter es (es.length + 1) F

/-- `frontier_empty` (lines 132-138): true iff all bits are zero. -/
def frontier_empty (F : Finset ℕ) : Bool :=
  decide (F = ∅)

/-- The edge loop of `advance_frontier` (lines 115-122) building the
scratch bitmap `next` from the all-zero bitmap: `continue` on ε edges,
`continue` on a mismatched id, otherwise set `dst` if `src` is active in
the old frontier. -/
def moveSet (es : List CEdge) (F : Finset ℕ) (observed : Int) : Finset ℕ :=
  es.foldl (fun nxt e =>
    if e.is_epsilon then nxt
    else if e.match_id ≠ observed then nxt
    else if e.src ∈ F then insert e.dst nxt else nxt) ∅

/-- `advance_frontier` (lines 109-130).  The routine first `kcalloc`s a
scratch bitmap with `GFP_ATOMIC`; `allocOk` tells whether that heap
allocation succeeds.  On failure the C code returns immediately
(`if (!next) return;`), leaving the frontier at its previous value, so
the observation is dropped.  On success the frontier is replaced by the
scratch set followed by `epsilon_closure`. -/
def advance_frontier (allocOk : Bool) (es : List CEdge) (F : Finset ℕ)
    (observed : Int) : Finset ℕ :=
  if allocOk then epsilon_closure es (moveSet es F observed) else F

/-- Model of `struct policy_blob` together with the edge array that
follows it in the ioctl payload (lines 32-39); `num_edges` is the length
of `edges`. -/
structure Blob where
  pid : Nat
  num_nodes : Nat
  id_mode : Nat
  edges : List CEdge
deriving DecidableEq

/-- Model of `struct proc_policy` (lines 46-54): the per-process policy
entry owning its edge array and frontier. -/
structure Policy where
  num_nodes : Nat
  edges : List CEdge
  id_mode : Nat
  fr : Finset ℕ
deriving DecidableEq

/-- The `pid → proc_policy` hash table, modelled as an association list. -/
abbrev Table := List (Nat × Policy)

/-- `lookup_ppid` (lines 142-149). -/
def lookupT (pid : Nat) (tbl : Table) : Option Policy :=
  match tbl with
  | [] => none
  | (q, p) :: rest => if q = pid then some p else lookupT pid rest

/-- Removal of the entry for `pid` (the `hash_del`/`kfree` block of
`sandbox_ioctl`, lines 176-182). -/
def eraseT (pid : Nat) (tbl : Table) : Table :=
  match tbl with
  | [] => []
  | (q, p) :: rest => if q = pid then rest else (q, p) :: eraseT pid rest

/-- In-place update of the entry for `pid` (the frontier of the found
`proc_policy` is mutated under `tbl_lock` in `handler_pre`). -/
def updateT (pid : Nat) (P : Policy) (tbl : Table) : Table :=
  tbl.map (fun kv => if kv.1 = pid then (kv.1, P) else kv)

/-- Success/failure of the four heap allocations performed by the
install path of `sandbox_ioctl`, in program order: the edge-array
`kcalloc` (line 167), the `kzalloc` of the new `proc_policy` (line 183),
the frontier bitmap `kcalloc` inside `frontier_init` (line 63), and the
in-degree scratch `kcalloc` (line 194). -/
structure AllocOracle where
  edgesOk : Bool
  ppOk : Bool
  frOk : Bool
  indegOk : Bool
deriving DecidableEq

/-- Error and crash outcomes of the install path.  `crash` models the
NULL-bitmap dereference that follows when `frontier_init` fails: its
return value is ignored at line 190, and the subsequent `frontier_set`
calls write through the NULL `fr.bitmap`. -/
inductive InstallRes where
  | ok
  | einval
  | enomem
  | crash
deriving DecidableEq

/-- The in-degree counting loop (lines 196-199): a `u32` array of size
`num_nodes` (calloc'd to zero), incremented at `dst` for every non-ε
edge.  The C code does not bounds-check `dst`; an out-of-range `dst` is
an out-of-bounds heap write there, which `List.set` models as a dropped
update. -/
def indegFold (es : List CEdge) (arr : List ℕ) : List ℕ :=
  es.foldl (fun a e => if e.is_epsilon then a else a.set e.dst (a.getD e.dst 0 + 1)) arr

/-- The start-set loop (lines 200-202): set every node `n < num_nodes`
whose computed in-degree is zero. -/
def startSet (numNodes : Nat) (es : List CEdge) : Finset ℕ :=
  (List.range numNodes).foldl
    (fun F n => if (indegFold es (List.replicate numNodes 0)).getD n 0 = 0 then insert n F else F) ∅

/-- The `IOCTL_LOAD_POLICY` branch of `sandbox_ioctl` (lines 158-217),
with the user-copy steps elided (the blob already carries its edges).
Order of operations mirrors the C code: validate, allocate the edge
copy, delete any existing entry for the pid, allocate the new
`proc_policy`, initialise the frontier, compute the start set (falling
back to node 0 only when the in-degree scratch allocation fails), apply
ε-closure, and link the entry into the table. -/
def sandboxInstall (o : AllocOracle) (tbl : Table) (b : Blob) : Table × InstallRes :=
  if b.num_nodes = 0 ∨ b.edges.length > 2 ^ 20 then
    (tbl, InstallRes.einval)
  else if ¬ o.edgesOk then
    (tbl, InstallRes.enomem)
  else
    let tbl1 := eraseT b.pid tbl
    if ¬ o.ppOk then
      (tbl1, InstallRes.enomem)
    else if ¬ o.frOk then
      (tbl1, InstallRes.crash)
    else
      let start := if o.indegOk then startSet b.num_nodes b.edges else insert 0 ∅
      let fr := epsilon_closure b.edges start
      ((b.pid, ⟨b.num_nodes, b.edges, b.id_mode, fr⟩) :: tbl1, InstallRes.ok)

/-- `handler_pre` (lines 242-262): look up the policy for the calling
pid (absent means unsandboxed no-op), advance the frontier on the
observed id, and send SIGKILL if the frontier became empty.  The
returned `Bool` is true iff SIGKILL was delivered; the policy entry is
kept either way.  `allocOk` is the scratch-bitmap oracle passed on to
`advance_frontier`. -/
def handler_pre (allocOk : Bool) (tbl : Table) (pid : Nat) (id : Int) :
    Table × Bool :=
  match lookupT pid tbl with
  | none => (tbl, false)
  | some p =>
    let fr' := advance_frontier allocOk p.edges p.fr id
    (updateT pid { p with fr := fr' } tbl, frontier_empty fr')

/-- The set the specification's `step` description denotes: every
`e.dst` over the non-ε edges `e` with `e.src ∈ F` and `e.match_id`
equal to the observed id. -/
def stepMoveSpec (es : List CEdge) (F : Finset ℕ) (observed : Int) : Finset ℕ :=
  ((es.filter (fun e => !e.is_epsilon && e.match_id == observed && decide (e.src ∈ F))).map
    (fun e => e.dst)).toFinset

/-- The declarative start set of the engine: nodes below `num_nodes`
whose non-ε in-degree over the blob's edges is zero. -/
def declStartSet (b : Blob) : Finset ℕ :=
  (Finset.range b.num_nodes).filter
    (fun n => (b.edges.filter (fun e => !e.is_epsilon && e.dst == n)).length = 0)

/-! ## LLVM pass (src/llvm-pass/src/LibCallPass.cpp, LibCallGraph.h)

A function is modelled after the pass has filtered its instructions: per
basic block, the ordered list of candidate library-call callee names
(`BBCallList::calls`, keeping only `isCandidateLibCall` calls) and the
ordered list of successor block indices (`successors(BB)`).

The pass iterates `bbMap`, a `std::map` keyed by `BasicBlock*`, whose
iteration order is the (unspecified) pointer order; the model fixes that
order to be the block order of the function.  Node indices are allocated
in that same iteration order (`G.addNodeRetIndex` in the first `bbMap`
loop), so in the model node indices enumerate call sites in block-major
program order. -/

/-- One basic block as seen by the pass: its candidate library calls (in
instruction order) and its successor block indices. -/
structure BBlock where
  calls : List String
  succs : List Nat
deriving DecidableEq

/-- One function: its name and basic blocks. -/
structure Fn where
  name : String
  blocks : List BBlock
deriving DecidableEq

/-- Model of `policy::Node` (LibCallGraph.h lines 17-23), restricted to
the fields the pass exports: `pretty` and the two identifiers, which
start at the `-1` "unassigned" sentinel. -/
structure PNode where
  pretty : String
  dummyID : Int
  uniqueID : Int
deriving DecidableEq

/-- A graph edge as stored by `Graph::addEdge` (src index, `NeighborEdge`
target and label). -/
structure PEdge where
  src : Nat
  dst : Nat
  label : String
deriving DecidableEq

/-- The calls of block `i` (empty for an out-of-range index). -/
def callsAt (f : Fn) (i : Nat) : List String :=
  ((f.blocks.getD i ⟨[], []⟩).calls)

/-- Number of nodes allocated before block `i`'s first call site. -/
def blockOffset (f : Fn) (i : Nat) : Nat :=
  (((f.blocks.take i).map (fun b => b.calls.length)).sum)

/-- `BBCallList::entryNode` of block `i`: the node of its first call. -/
def blockEntry (f : Fn) (i : Nat) : Nat := blockOffset f i

/-- `BBCallList::exitNode` of block `i`: the node of its last call. -/
def blockExit (f : Fn) (i : Nat) : Nat :=
  blockOffset f i + (callsAt f i).length - 1

/-- Total number of call sites, i.e. `G.nodes.size()`. -/
def totalCalls (f : Fn) : Nat :=
  ((f.blocks.map (fun b => b.calls.length)).sum)

/-- The node array after the first `bbMap` loop (LibCallPass.cpp lines
112-121): one node per call site, `pretty` set to the callee name, both
identifiers still at the `-1` sentinel. -/
def buildNodes (f : Fn) : List PNode :=
  ((f.blocks.map (fun b => b.calls.map (fun c => ⟨c, -1, -1⟩))).flatten)

/-- The `SIZE_MAX` default of `BBCallList::entryNode`/`exitNode`
(lines 79-80). -/
def sizeMaxC : Nat := 2 ^ 64 - 1

/-- Intra-block edges of block `i` (lines 130-137): a non-ε edge between
each pair of consecutive call sites, labelled with the source site's
callee name. -/
def intraEdges (f : Fn) (i : Nat) : List PEdge :=
  (List.range ((callsAt f i).length - 1)).map
    (fun j => ⟨blockOffset f i + j, blockOffset f i + j + 1, (callsAt f i).getD j ""⟩)

/-- Inter-block ε edges of block `i` (lines 138-147): for each successor
block with calls, an ε edge from block `i`'s last call site.  The
`entryNode`/`exitNode` fields are assigned in the same `bbMap` loop that
reads them, so a successor that the iteration has not reached yet
(`i < s` in the model's iteration order) still has its `SIZE_MAX`
default as `entryNode`; only successors already visited (`s ≤ i`)
contribute their real first call site. -/
def epsEdgesOf (f : Fn) (i : Nat) : List PEdge :=
  if callsAt f i = [] then []
  else
    (f.blocks.getD i ⟨[], []⟩).succs.filterMap (fun s =>
      match f.blocks.get? s with
      | none => none
      | some bs =>
        if bs.calls = [] then none
        else some ⟨blockExit f i, if s ≤ i then blockEntry f s else sizeMaxC, "ϵ"⟩)

/-- All edges of the extracted `Graph`, in the insertion order of the
second `bbMap` loop (intra-block edges of a block, then its ε edges). -/
def buildPEdges (f : Fn) : List PEdge :=
  (((List.range f.blocks.length).map (fun i => intraEdges f i ++ epsEdgesOf f i)).flatten)

/-- The edge order used by the JSON export (lines 204-223): the export
walks `G.adj`, i.e. edges grouped by source node in insertion order. -/
def exportPEdges (f : Fn) : List PEdge :=
  (((List.range (totalCalls f)).map
    (fun s => (buildPEdges f).filter (fun e => e.src == s))).flatten)

/-- Model of `PolicyJSON::LibCallSite` (LibCallGraph.h lines 50-56). -/
structure Site where
  name : String
  uniqueID : Int
  dummyID : Int
  resetCount : Int
  irLocation : String
deriving DecidableEq

/-- Model of `PolicyJSON::Edge` (LibCallGraph.h lines 57-63). -/
structure JEdge where
  src : Nat
  dst : Nat
  label : String
  matchDummy : Int
  matchUnique : Int
deriving DecidableEq

/-- Model of `PolicyJSON::FuncPolicy` (LibCallGraph.h lines 64-74). -/
structure FuncPolicy where
  functionName : String
  mod : Nat
  idMode : String
  callsInOrder : List Site
  nodeLabels : List String
  nodeDummyIDs : List Int
  nodeUniqueIDs : List Int
  edges : List JEdge
deriving DecidableEq

/-- Model of `PolicyJSON` (LibCallGraph.h lines 49-79). -/
structure PolicyJSON where
  functions : List FuncPolicy
deriving DecidableEq

/-- The per-call body of the instrumentation loop (LibCallPass.cpp lines
155-196) over the calls of one block.  `uc`, `dc` are the per-function
`uniqueIdCounterPerFunc` and `dummyCounterPerFunc` counters; `idx` is
`callNodeIndex[&I]`, which in the model's iteration order is the running
site index.  Each site gets `uniqueID = ++uc` and
`dummyID = dc % M` (with `reset = dc / M`) before `dc++`; the node at
`idx` receives both identifiers, and a `LibCallSite` record is appended
whose `uniqueID` field is `-1` unless the id mode is `"unique"`.  Debug
locations are outside the model, so `irLocation` is the `"unknown"`
default. -/
def instrCalls (M : Nat) (mode : String) :
    List String → Nat → Nat → Nat → List PNode → List Site →
    Nat × Nat × Nat × List PNode × List Site
  | [], uc, dc, idx, ns, ss => (uc, dc, idx, ns, ss)
  | c :: cs, uc, dc, idx, ns, ss =>
    let uniqueID := uc + 1
    let dummyID := dc % M
    let reset := dc / M
    let ns' := ns.set idx ⟨(ns.getD idx ⟨"", -1, -1⟩).pretty, (dummyID : Nat), (uniqueID : Nat)⟩
    let site : Site :=
      ⟨c, if mode = "unique" then (uniqueID : Nat) else -1, (dummyID : Nat), (reset : Nat), "unknown"⟩
    instrCalls M mode cs uniqueID (dc + 1) (idx + 1) ns' (ss ++ [site])

/-- The instrumentation loop over all blocks in program order. -/
def instrGo (M : Nat) (mode : String) :
    List BBlock → Nat → Nat → Nat → List PNode → List Site →
    List PNode × List Site
  | [], _, _, _, ns, ss => (ns, ss)
  | b :: bs, uc, dc, idx, ns, ss =>
    let r := instrCalls M mode b.calls uc dc idx ns ss
    instrGo M mode bs r.1 r.2.1 r.2.2.1 r.2.2.2.1 r.2.2.2.2

/-- The JSON edge export of one graph edge (lines 204-223): ε edges get
`-1` in both match fields, other edges carry both identifiers of their
source node. -/
def toJEdge (ns : List PNode) (e : PEdge) : JEdge :=
  if e.label = "ϵ" then
    ⟨e.src, e.dst, e.label, -1, -1⟩
  else
    ⟨e.src, e.dst, e.label, (ns.getD e.src ⟨"", -1, -1⟩).dummyID,
      (ns.getD e.src ⟨"", -1, -1⟩).uniqueID⟩

/-- The per-function body of `LibCallPass::run` (lines 91-239): extract
the graph, run the instrumentation/identifier loop, and export the
`FuncPolicy` record (name, modulus `M`, id-mode tag, call list, node
arrays, edge array). -/
def buildFuncPol (f : Fn) (M : Nat) (mode : String) : FuncPolicy :=
  let r := instrGo M mode f.blocks 0 0 0 (buildNodes f) []
  { functionName := f.name
    mod := M
    idMode := mode
    callsInOrder := r.2
    nodeLabels := r.1.map (fun n => n.pretty)
    nodeDummyIDs := r.1.map (fun n => n.dummyID)
    nodeUniqueIDs := r.1.map (fun n => n.uniqueID)
    edges := (exportPEdges f).map (toJEdge r.1) }

/-- One step along a graph edge (either labelled or ε). -/
def stepRel (es : List PEdge) (a b : Nat) : Prop :=
  ∃ e ∈ es, e.src = a ∧ e.dst = b

/-- Reachability in the extracted graph. -/
def Reach (es : List PEdge) (a b : Nat) : Prop :=
  Relation.ReflTransGen (stepRel es) a b

/-! ## Policy artifact serializer (`PolicyJSON::serialize`,
LibCallPass.cpp lines 343-396)

The serializer is a fixed sequence of `ostringstream` emissions; the
model rebuilds the same string.  `emitListNL` renders the
element-comma-newline pattern (`item`, then `","` unless last, then
`"\n"`), `emitListInline` the comma-only pattern of the node arrays. -/

/-- Comma/newline separated list body used for `callsInOrder`,
`edges`, and the function list itself. -/
def emitListNL (items : List String) : String :=
  match items with
  | [] => ""
  | _ => String.intercalate ",\n" items ++ "\n"

/-- Comma separated inline list body used for the node arrays. -/
def emitListInline (items : List String) : String :=
  String.intercalate "," items

/-- One `callsInOrder` entry (lines 353-360). -/
def serializeSite (c : Site) : String :=
  "        \x7b\"name\":\"" ++ c.name ++ "\",\"uniqueID\":" ++ toString c.uniqueID ++
    ",\"dummyID\":" ++ toString c.dummyID ++ ",\"resetCount\":" ++ toString c.resetCount ++
    ",\"irLocation\":\"" ++ c.irLocation ++ "\"\x7d"

/-- One `edges` entry (lines 382-388). -/
def serializeJEdge (E : JEdge) : String :=
  "        \x7b\"src\":" ++ toString E.src ++ ",\"dst\":" ++ toString E.dst ++
    ",\"label\":\"" ++ E.label ++ "\",\"matchDummy\":" ++ toString E.matchDummy ++
    ",\"matchUnique\":" ++ toString E.matchUnique ++ "\x7d"

/-- One function object (lines 346-392). -/
def serializeFuncPol (f : FuncPolicy) : String :=
  "    \x7b\n      \"functionName\": \"" ++ f.functionName ++ "\",\n      \"mod\": " ++
    toString f.mod ++ ",\n      \"idMode\": \"" ++ f.idMode ++
    "\",\n      \"callsInOrder\": [\n" ++ emitListNL (f.callsInOrder.map serializeSite) ++
    "      ],\n      \"nodeLabels\": [" ++
    emitListInline (f.nodeLabels.map (fun s => "\"" ++ s ++ "\"")) ++
    "],\n      \"nodeDummyIDs\": [" ++ emitListInline (f.nodeDummyIDs.map toString) ++
    "],\n      \"nodeUniqueIDs\": [" ++ emitListInline (f.nodeUniqueIDs.map toString) ++
    "],\n      \"edges\": [\n" ++ emitListNL (f.edges.map serializeJEdge) ++
    "      ]\n    \x7d"

/-- `PolicyJSON::serialize` (lines 343-396). -/
def PolicyJSON.serialize (P : PolicyJSON) : String :=
  "\x7b\n  \"functions\": [\n" ++ emitListNL (P.functions.map serializeFuncPol) ++
    "  ]\n\x7d\n"

/-! ## Policy loader (src/unnamed/part_000)

The loader scans the artifact text with `strstr`/`strchr` arithmetic;
the model works on the artifact as a `List Char` with explicit indices
standing for the C pointers. -/

/-- C `isspace` over the default locale. -/
def isSpaceC (c : Char) : Bool :=
  c = ' ' ∨ c = '\t' ∨ c = '\n' ∨ c = '\x0b' ∨ c = '\x0c' ∨ c = '\r'

/-- Index of the first occurrence of `needle` in `hay` (`strstr`);
`none` for no occurrence. -/
def strstrIdx : List Char → List Char → Option Nat
  | [], needle => if needle.isEmpty then some 0 else none
  | c :: t, needle =>
    if needle.isPrefixOf (c :: t) then some 0
    else (strstrIdx t needle).map (fun k => k + 1)

/-- `strstr(j + p, needle)` as an absolute index into `j`. -/
def strstrFrom (j : List Char) (p : Nat) (needle : List Char) : Option Nat :=
  (strstrIdx (j.drop p) needle).map (fun k => k + p)

/-- `strchr(j + p, c)` as an absolute index into `j`. -/
def strchrFrom (j : List Char) (p : Nat) (c : Char) : Option Nat :=
  ((j.drop p).findIdx? (fun d => d = c)).map (fun k => k + p)

/-- Number of occurrences of `c` at indices `a ≤ t < b`
(the `for (t = a; t < b; ++t) if (*t == c)` counting loops). -/
def sliceCount (j : List Char) (a b : Nat) (c : Char) : Nat :=
  (((j.drop a).take (b - a)).filter (fun d => d = c)).length

/-- The value scan of `find_value` (part_000 lines 53-59): skip
whitespace; a value starting with `"` is read up to the closing quote
(exclusive), anything else up to the next `,`, `]` or `}` (or end of
string). -/
def valueScan (rest : List Char) : List Char :=
  let r := rest.dropWhile (fun c => isSpaceC c)
  match r with
  | '"' :: r' => r'.takeWhile (fun c => ¬ c = '"')
  | _ => r.takeWhile (fun c => ¬ (c = ',' ∨ c = ']' ∨ c = '}'))

/-- `find_value` (lines 48-64): find `key` from position `p`, jump to
the next `:`, scan the value, and copy at most 63 characters into the
caller's 64-byte buffer. -/
def find_value (j : List Char) (p : Nat) (key : List Char) : Option (List Char) :=
  match strstrFrom j p key with
  | none => none
  | some kp =>
    match strchrFrom j kp ':' with
    | none => none
    | some cp => some ((valueScan (j.drop (cp + 1))).take 63)

/-- C `atoi`: skip whitespace, optional sign, then leading digits. -/
def atoiL (s : List Char) : Int :=
  let t := s.dropWhile (fun c => isSpaceC c)
  match t with
  | '-' :: r => - ((r.takeWhile Char.isDigit).foldl (fun a c => a * 10 + (c.toNat - 48)) 0 : Nat)
  | '+' :: r => ((r.takeWhile Char.isDigit).foldl (fun a c => a * 10 + (c.toNat - 48)) 0 : Nat)
  | r => ((r.takeWhile Char.isDigit).foldl (fun a c => a * 10 + (c.toNat - 48)) 0 : Nat)

/-- The `(uint32_t)atoi(buf)` cast. -/
def u32ofInt (x : Int) : Nat :=
  (x % (2 ^ 32)).toNat

/-- An edge as the loader builds it (`struct edge` in part_000 lines
18-23); a calloc'd entry is all zeroes. -/
structure LEdge where
  src : Nat
  dst : Nat
  match_id : Int
  is_epsilon : Bool
deriving DecidableEq

/-- The all-zero `struct edge` produced by `calloc`. -/
def defaultLEdge : LEdge := ⟨0, 0, 0, false⟩

/-- Look up one field inside the current edge object: `strstr` for the
quoted key from `es`, check it lies before the closing `}` at `ee`, then
run `find_value` on the unquoted key (lines 113-142). -/
def fieldVal (j : List Char) (es ee : Nat) (quoted unquoted : List Char) :
    Option (List Char) :=
  match strstrFrom j es quoted with
  | none => none
  | some f => if f < ee then find_value j f unquoted else none

/-- Parse the fields of the edge object spanning `[es, ee]` (lines
110-142): missing `src`/`dst` keep their calloc'd zero, a label equal to
`"ϵ"` (with or without the quotes left by `find_value`) sets
`is_epsilon`, and the match field of the selected id mode defaults to
`-1` when absent. -/
def parseEdgeFields (j : List Char) (es ee : Nat) (idMode : Nat) : LEdge :=
  let src := match fieldVal j es ee ("\"src\"".toList) ("src".toList) with
    | some v => u32ofInt (atoiL v)
    | none => 0
  let dst := match fieldVal j es ee ("\"dst\"".toList) ("dst".toList) with
    | some v => u32ofInt (atoiL v)
    | none => 0
  let eps : Bool := match fieldVal j es ee ("\"label\"".toList) ("label".toList) with
    | some v => decide (v = ("\"ϵ\"".toList) ∨ v = ("ϵ".toList))
    | none => false
  let mid := match fieldVal j es ee
      (if idMode = 0 then ("\"matchDummy\"".toList) else ("\"matchUnique\"".toList))
      (if idMode = 0 then ("matchDummy".toList) else ("matchUnique".toList)) with
    | some v => atoiL v
    | none => -1
  ⟨src, dst, mid, eps⟩

/-- The crude parse loop (lines 103-145): repeatedly take the next
`{ ... }` span before `endIdx` and parse one edge from it.  Each
iteration consumes one `{` in `[start, endIdx)`, so `fuel` one larger
than the `{` count reproduces the C loop exactly. -/
def parseEdges (j : List Char) (endIdx : Nat) (idMode : Nat) :
    Nat → Nat → List LEdge
  | 0, _ => []
  | fuel + 1, cur =>
    match strchrFrom j cur '{' with
    | none => []
    | some es =>
      if es ≥ endIdx then []
      else
        match strchrFrom j es '}' with
        | none => []
        | some ee => parseEdgeFields j es ee idMode :: parseEdges j endIdx idMode fuel (ee + 1)

/-- The loader-side install blob: header counts plus the edge array
(part_000 lines 191-202). -/
structure LoaderBlob where
  numNodes : Nat
  numEdges : Nat
  edges : List LEdge
deriving DecidableEq

/-- The function-selection loop of `extract_graph_edges` (lines 72-77):
`count` times, find `"edges":` from `p` and move `p` eight characters
past the match; fail if any search fails. -/
def extractKeyLoop (j : List Char) (p : Nat) : Nat → Option Nat
  | 0 => some p
  | k + 1 =>
    match strstrFrom j p ("\"edges\":".toList) with
    | none => none
    | some q => extractKeyLoop j (q + 8) k

/-- `extract_graph_edges` (lines 67-150).  The function index loop finds
the `func_index+1`-th occurrence of `"edges":` and leaves `p` just past
it; the edges array is the bracket span after `p`; the node count is
taken from the *next* `"nodeLabels":` occurrence after `p` (the comma
count of its bracket span, plus one whenever the span is wider than two
characters); the edge count is the `{` count of the edges span.  `none`
models the `-1` error return (a NULL `strchr` argument, which the C code
would pass on after a failed search, is also mapped to `none`). -/
def extractGraphEdges (j : List Char) (funcIndex : Nat) (idMode : Nat) :
    Option LoaderBlob :=
  match extractKeyLoop j 0 (funcIndex + 1) with
  | none => none
  | some p =>
    match strchrFrom j p '[' with
    | none => none
    | some start =>
      match strchrFrom j start ']' with
      | none => none
      | some endI =>
        if endI ≤ start then none
        else
          match strstrFrom j p ("\"nodeLabels\":".toList) with
          | none => none
          | some nl =>
            match strchrFrom j nl '[' with
            | none => none
            | some nlb =>
              match strchrFrom j nlb ']' with
              | none => none
              | some nle =>
                let commas := sliceCount j nlb nle ','
                let numNodes := if nle - nlb > 2 then commas + 1 else 0
                let ec := sliceCount j start endI '{'
                let parsed := parseEdges j endI idMode (ec + 1) start
                some ⟨numNodes, ec,
                  (parsed.take ec) ++ List.replicate (ec - parsed.length) defaultLEdge⟩

/-- `main`'s exit status at the parse step (lines 179-185): `1` when
`extract_graph_edges` fails, otherwise the loader continues towards the
ioctl. -/
def loaderParseExit (j : List Char) (funcIndex : Nat) (idMode : Nat) : Nat :=
  match extractGraphEdges j funcIndex idMode with
  | none => 1
  | some _ => 0

/-- Characters that are not whitespace, for stating that two artifacts
differ only in whitespace. -/
def stripWS (j : List Char) : List Char :=
  j.filter (fun c => ¬ isSpaceC c)

/-- Replace the first occurrence of `needle` by `repl` (used to build a
whitespace variant of an artifact). -/
def replaceFirstL (hay needle repl : List Char) : List Char :=
  match strstrIdx hay needle with
  | none => hay
  | some i => hay.take i ++ repl ++ hay.drop (i + needle.length)

/-! ## Concrete instances used by counterexamples and witnesses -/

/-- A function with a single basic block calling `open`, `read`,
`close` (the spec's linear scenario). -/
def fnORC : Fn := ⟨"main", [⟨["open", "read", "close"], []⟩]⟩

/-- The serialized single-function artifact for `fnORC`. -/
def artifactOne : String := PolicyJSON.serialize ⟨[buildFuncPol fnORC 200 "dummy"]⟩

/-- A function with a single basic block calling `open`, `read`. -/
def fnOR : Fn := ⟨"main", [⟨["open", "read"], []⟩]⟩

/-- A function with one basic block and no library calls. -/
def fnG : Fn := ⟨"g", [⟨[], []⟩]⟩

/-- A serialized two-function artifact whose second function has an
empty `nodeLabels` array. -/
def artifactTwoA : String :=
  PolicyJSON.serialize ⟨[buildFuncPol fnOR 200 "dummy", buildFuncPol fnG 200 "dummy"]⟩

/-- `artifactTwoA` with two spaces inserted inside the empty
`nodeLabels` array of the second function: a whitespace-only variant. -/
def artifactTwoB : List Char :=
  replaceFirstL artifactTwoA.toList ("\"nodeLabels\": []".toList) ("\"nodeLabels\": [  ]".toList)

/-- Three blocks: block 0 calls `f` and falls through to the call-free
block 1, which falls through to block 2 calling `g`. -/
def fn0 : Fn := ⟨"h", [⟨["f"], [1]⟩, ⟨[], [2]⟩, ⟨["g"], []⟩]⟩

/-- One block calling `a` then `b`, looping back to itself. -/
def fnW : Fn := ⟨"w", [⟨["a", "b"], [0]⟩]⟩

/-- A blob whose single edge points at node 5 although only node 0
exists. -/
def blob2 : Blob := ⟨9, 1, 0, [⟨0, 5, 0, false⟩]⟩

/-- A trivial installed policy for pid 7. -/
def pol7 : Policy := ⟨1, [], 0, insert 0 ∅⟩

/-- A well-formed blob for pid 7. -/
def blob3 : Blob := ⟨7, 1, 0, []⟩

/-- One node with a non-ε self loop: no node has non-ε in-degree
zero. -/
def blob4 : Blob := ⟨1, 1, 0, [⟨0, 0, 0, false⟩]⟩

/-- A two-node blob used to instantiate the amended install theorem. -/
def blob4w : Blob := ⟨5, 2, 0, [⟨0, 1, 3, false⟩]⟩

/-- A one-node policy with no edges for pid 3. -/
def pol6 : Policy := ⟨1, [], 0, insert 0 ∅⟩

/-- A table holding `pol6` for pid 3. -/
def tbl6 : Table := [(3, pol6)]

/-- A single non-ε edge consuming id 7. -/
def es1 : List CEdge := [⟨0, 1, 7, false⟩]

/-- All four install-path allocations succeed. -/
def allocAll : AllocOracle := ⟨true, true, true, true⟩

/-- Only the in-degree scratch allocation fails. -/
def allocNoIndeg : AllocOracle := ⟨true, true, true, false⟩

/-- The ε-edge destinations of an edge list; every element a productive
closure pass can add comes from this set. -/
def epsDsts (es : List CEdge) : Finset ℕ :=
  ((es.filter (fun e => e.is_epsilon)).map (fun e => e.dst)).toFinset

/-! ## Properties of the ε-closure loop -/

theorem subset_epsPass (es : List CEdge) (F : Finset ℕ) : F ⊆ epsPass es F := by
  unfold epsPass
  induction es generalizing F with
  | nil => exact Finset.Subset.refl F
  | cons e t ih =>
    rw [List.foldl_cons]
    refine Finset.Subset.trans ?_ (ih _)
    by_cases h : e.is_epsilon ∧ e.src ∈ F
    · simp only [if_pos h]
      exact Finset.subset_insert _ F
    · simp only [if_neg h]
      exact Finset.Subset.refl F

theorem epsDsts_cons (e : CEdge) (t : List CEdge) :
    epsDsts (e :: t) = if e.is_epsilon then insert e.dst (epsDsts t) else epsDsts t := by
  by_cases h : e.is_epsilon <;> simp [epsDsts, List.filter_cons, h]

theorem mem_epsPass (es : List CEdge) (F : Finset ℕ) (x : ℕ) (hx : x ∈ epsPass es F) :
    x ∈ F ∨ x ∈ epsDsts es := by
  unfold epsPass at hx
  induction es generalizing F with
  | nil => exact Or.inl hx
  | cons e t ih =>
    rw [List.foldl_cons] at hx
    rcases ih _ hx with h | h
    · by_cases hc : e.is_epsilon ∧ e.src ∈ F
      · simp only [if_pos hc] at h
        rcases Finset.mem_insert.mp h with rfl | h
        · right
          rw [epsDsts_cons, if_pos hc.1]
          exact Finset.mem_insert_self _ _
        · exact Or.inl h
      · simp only [if_neg hc] at h
        exact Or.inl h
    · right
      rw [epsDsts_cons]
      by_cases he : e.is_epsilon
      · rw [if_pos he]; exact Finset.mem_insert_of_mem h
      · rw [if_neg he]; exact h

theorem subset_closureIter (es : List CEdge) (n : Nat) (F : Finset ℕ) :
    F ⊆ closureIter es n F := by
  induction n generalizing F with
  | zero => exact Finset.Subset.refl F
  | succ n ih =>
    rw [closureIter]
    by_cases h : epsPass es F = F
    · simp only [if_pos h]
      exact Finset.Subset.refl F
    · simp only [if_neg h]
      exact Finset.Subset.trans (subset_epsPass es F) (ih _)

theorem closureIter_of_fix (es : List CEdge) (n : Nat) (F : Finset ℕ)
    (h : epsPass es F = F) : closureIter es n F = F := by
  cases n with
  | zero => rfl
  | succ n => rw [closureIter]; simp only [if_pos h]

theorem closureIter_reaches_fix (es : List CEdge) (n : Nat) (F : Finset ℕ)
    (hn : (epsDsts es \ F).card < n) :
    epsPass es (closureIter es n F) = closureIter es n F := by
  induction n generalizing F with
  | zero => omega
  | succ n ih =>
    rw [closureIter]
    by_cases h : epsPass es F = F
    · simpa only [if_pos h] using h
    · simp only [if_neg h]
      apply ih
      have hsub : F ⊆ epsPass es F := subset_epsPass es F
      have hss : F ⊂ epsPass es F := Finset.ssubset_iff_subset_ne.mpr ⟨hsub, fun hq => h hq.symm⟩
      obtain ⟨x, hxP, hxF⟩ := Finset.exists_of_ssubset hss
      have hxD : x ∈ epsDsts es := (mem_epsPass es F x hxP).resolve_left hxF
      have hcard : (epsDsts es \ epsPass es F).card < (epsDsts es \ F).card := by
        apply Finset.card_lt_card
        refine Finset.ssubset_iff_of_subset
          (Finset.sdiff_subset_sdiff (Finset.Subset.refl _) hsub) |>.mpr ?_
        exact ⟨x, Finset.mem_sdiff.mpr ⟨hxD, hxF⟩, fun hc => (Finset.mem_sdiff.mp hc).2 hxP⟩
      omega

theorem epsPass_closure_fix (es : List CEdge) (F : Finset ℕ) :
    epsPass es (epsilon_closure es F) = epsilon_closure es F := by
  apply closureIter_reaches_fix
  have h1 : (epsDsts es \ F).card ≤ (epsDsts es).card :=
    Finset.card_le_card (Finset.sdiff_subset)
  have h2 : (epsDsts es).card ≤ es.length := by
    have h3 := List.toFinset_card_le
      (l := (es.filter (fun e => e.is_epsilon)).map (fun e => e.dst))
    rw [List.length_map] at h3
    simp only [epsDsts]
    exact le_trans h3 (List.length_filter_le _ es)
  omega

theorem epsPass_empty (es : List CEdge) : epsPass es ∅ = ∅ := by
  unfold epsPass
  induction es with
  | nil => rfl
  | cons e t ih =>
    rw [List.foldl_cons]
    simpa using ih

theorem epsilon_closure_empty (es : List CEdge) : epsilon_closure es ∅ = ∅ :=
  closureIter_of_fix es _ ∅ (epsPass_empty es)

theorem stepMoveSpec_cons (e : CEdge) (t : List CEdge) (F : Finset ℕ) (v : Int) :
    stepMoveSpec (e :: t) F v =
      if !e.is_epsilon && e.match_id == v && decide (e.src ∈ F)
      then insert e.dst (stepMoveSpec t F v) else stepMoveSpec t F v := by
  by_cases h : (!e.is_epsilon && e.match_id == v && decide (e.src ∈ F)) = true
  · simp [stepMoveSpec, List.filter_cons, h]
  · simp only [Bool.not_eq_true] at h
    simp [stepMoveSpec, List.filter_cons, h]

theorem moveSet_eq_spec (es : List CEdge) (F : Finset ℕ) (v : Int) :
    moveSet es F v = stepMoveSpec es F v := by
  have key : ∀ (l : List CEdge) (acc : Finset ℕ),
      l.foldl (fun nxt e =>
        if e.is_epsilon then nxt
        else if e.match_id ≠ v then nxt
        else if e.src ∈ F then insert e.dst nxt else nxt) acc = acc ∪ stepMoveSpec l F v := by
    intro l
    induction l with
    | nil =>
      intro acc
      simp [stepMoveSpec]
    | cons e t ih =>
      intro acc
      rw [List.foldl_cons, ih, stepMoveSpec_cons]
      by_cases h1 : e.is_epsilon
      · simp [h1]
      · by_cases h2 : e.match_id = v
        · by_cases h3 : e.src ∈ F
          · simp only [if_neg h1, h2, if_neg (by simp : ¬ (v ≠ v)), if_pos h3]
            simp [h1, h2, h3, Finset.union_insert]
          · simp only [if_neg h1, h2, if_neg (by simp : ¬ (v ≠ v)), if_neg h3]
            simp [h1, h2, h3]
        · simp only [if_neg h1, if_pos h2]
          simp [h1, h2]
  have := key es ∅
  simpa [moveSet] using this

/-- Claim C9: for every edge list and frontier, the engine's ε-closure
is a closure operator: the frontier only grows (`F ⊆ closure F`) and a
second application changes nothing (`closure (closure F) = closure F`). -/
theorem claim_C9_closure_operator (es : List CEdge) (F : Finset ℕ) :
    F ⊆ epsilon_closure es F ∧
      epsilon_closure es (epsilon_closure es F) = epsilon_closure es F :=
  ⟨subset_closureIter es _ F,
    closureIter_of_fix es _ _ (epsPass_closure_fix es F)⟩

/-- Claim C1: with the scratch allocation succeeding, one step of
`advance_frontier` replaces the frontier by the set of `e.dst` over the
non-ε edges `e` with `e.src` active and `e.match_id` equal to the
observed id, followed by ε-closure; and when no such edge matches, the
resulting frontier is empty. -/
theorem claim_C1_observe_step (es : List CEdge) (F : Finset ℕ) (v : Int) :
    advance_frontier true es F v = epsilon_closure es (stepMoveSpec es F v) ∧
      ((∀ e ∈ es, e.is_epsilon = false → e.src ∈ F → ¬ e.match_id = v) →
        advance_frontier true es F v = ∅) := by
  constructor
  · rw [advance_frontier, if_pos rfl, moveSet_eq_spec]
  · intro hnone
    rw [advance_frontier, if_pos rfl]
    have hspec : stepMoveSpec es F v = ∅ := by
      have hfil : es.filter (fun e => !e.is_epsilon && e.match_id == v && decide (e.src ∈ F)) = [] := by
        rw [List.filter_eq_nil_iff]
        intro e he hc
        simp only [Bool.and_eq_true, Bool.not_eq_true', beq_iff_eq, decide_eq_true_eq] at hc
        exact hnone e he hc.1.1 hc.2 hc.1.2
      simp [stepMoveSpec, hfil]
    rw [moveSet_eq_spec, hspec, epsilon_closure_empty]

/-- Witness for claim C1 at a concrete input: the single non-ε edge of
`es1` consumes id 7, so observing 5 from frontier `{0}` empties the
frontier. -/
theorem claim_C1_observe_step_witness :
    advance_frontier true es1 (insert 0 ∅) 5 = ∅ :=
  (claim_C1_observe_step es1 (insert 0 ∅) 5).2 (by decide)

/-! ## Properties of the install path -/

theorem indegFold_getD (es : List CEdge) :
    ∀ (arr : List ℕ) (n : Nat), n < arr.length →
      (indegFold es arr).getD n 0 =
        arr.getD n 0 + (es.filter (fun e => !e.is_epsilon && e.dst == n)).length := by
  induction es with
  | nil =>
    intro arr n _
    simp [indegFold]
  | cons e t ih =>
    intro arr n h
    simp only [indegFold, List.foldl_cons] at ih ⊢
    by_cases he : e.is_epsilon
    · rw [if_pos he, ih arr n h]
      simp [List.filter_cons, he]
    · rw [if_neg he]
      have hlen : (arr.set e.dst (arr.getD e.dst 0 + 1)).length = arr.length :=
        List.length_set arr e.dst (arr.getD e.dst 0 + 1)
      rw [ih _ n (by omega)]
      by_cases hd : e.dst = n
      · subst hd
        have hset : (arr.set e.dst (arr.getD e.dst 0 + 1)).getD e.dst 0
            = arr.getD e.dst 0 + 1 := by
          simp only [List.getD_eq_getElem?_getD]
          rw [List.getElem?_set_self h]
          rfl
        rw [hset]
        simp only [List.filter_cons, he, beq_self_eq_true, Bool.not_false, Bool.and_true,
          Bool.and_self, if_pos]
        simp [List.length_cons]
        omega
      · have hset : (arr.set e.dst (arr.getD e.dst 0 + 1)).getD n 0 = arr.getD n 0 := by
          simp only [List.getD_eq_getElem?_getD]
          rw [List.getElem?_set_ne hd]
        rw [hset]
        have hpe : (!e.is_epsilon && e.dst == n) = false := by
          simp [hd]
        simp [List.filter_cons, hpe]

theorem mem_foldInsert (p : ℕ → Prop) [DecidablePred p] :
    ∀ (l : List ℕ) (F0 : Finset ℕ) (x : ℕ),
      x ∈ l.foldl (fun F n => if p n then insert n F else F) F0 ↔
        x ∈ F0 ∨ (x ∈ l ∧ p x) := by
  intro l
  induction l with
  | nil =>
    intro F0 x
    simp
  | cons a t ih =>
    intro F0 x
    rw [List.foldl_cons, ih]
    by_cases hpa : p a
    · rw [if_pos hpa]
      constructor
      · rintro (h | h)
        · rcases Finset.mem_insert.mp h with rfl | h
          · exact Or.inr ⟨List.mem_cons_self _ _, hpa⟩
          · exact Or.inl h
        · exact Or.inr ⟨List.mem_cons_of_mem a h.1, h.2⟩
      · rintro (h | ⟨hm, hp⟩)
        · exact Or.inl (Finset.mem_insert_of_mem h)
        · rcases List.mem_cons.mp hm with rfl | hm
          · exact Or.inl (Finset.mem_insert_self _ _)
          · exact Or.inr ⟨hm, hp⟩
    · rw [if_neg hpa]
      constructor
      · rintro (h | h)
        · exact Or.inl h
        · exact Or.inr ⟨List.mem_cons_of_mem a h.1, h.2⟩
      · rintro (h | ⟨hm, hp⟩)
        · exact Or.inl h
        · rcases List.mem_cons.mp hm with rfl | hm
          · exact absurd hp hpa
          · exact Or.inr ⟨hm, hp⟩

theorem startSet_eq_decl (b : Blob) :
    startSet b.num_nodes b.edges = declStartSet b := by
  ext x
  rw [startSet, mem_foldInsert (fun n => (indegFold b.edges
    (List.replicate b.num_nodes 0)).getD n 0 = 0)]
  simp only [Finset.not_mem_empty, false_or, declStartSet, Finset.mem_filter,
    Finset.mem_range, List.mem_range]
  constructor
  · rintro ⟨hx, hz⟩
    refine ⟨hx, ?_⟩
    rw [indegFold_getD b.edges _ x (by simpa using hx)] at hz
    simpa using hz
  · rintro ⟨hx, hz⟩
    refine ⟨hx, ?_⟩
    rw [indegFold_getD b.edges _ x (by simpa using hx)]
    simpa using hz

/-- Claim C2 (code bug): the install path of `sandbox_ioctl` only
validates the node count and the edge-count cap; a blob whose single
edge has `dst = 5` with `num_nodes = 1` passes validation and installs
a policy (the in-degree pass then writes out of bounds in the C code,
which the model's `List.set` drops). -/
theorem claim_C2_missing_endpoint_validation :
    (∃ e ∈ blob2.edges, ¬ (e.src < blob2.num_nodes ∧ e.dst < blob2.num_nodes)) ∧
      (sandboxInstall allocAll [] blob2).2 = InstallRes.ok ∧
      lookupT 9 (sandboxInstall allocAll [] blob2).1 =
        some ⟨1, blob2.edges, 0, insert 0 ∅⟩ := by
  refine ⟨⟨⟨0, 5, 0, false⟩, by decide, by decide⟩, by decide, by decide⟩

/-- Claim C3 (code bug): `sandbox_ioctl` deletes the existing policy
for the pid before allocating the replacement (lines 176-183), so when
the `kzalloc` of the new `proc_policy` fails the install returns
`-ENOMEM` with the old policy already destroyed: pid 7 had `pol7`
installed and ends with no policy at all. -/
theorem claim_C3_install_failure_drops_old_policy :
    lookupT 7 [(7, pol7)] = some pol7 ∧
      (sandboxInstall ⟨true, false, true, true⟩ [(7, pol7)] blob3).2 = InstallRes.enomem ∧
      lookupT 7 (sandboxInstall ⟨true, false, true, true⟩ [(7, pol7)] blob3).1 = none := by
  refine ⟨by decide, by decide, by decide⟩

/-- Counterexample to claim C4: in `blob4` every node has a non-ε
in-edge (the self loop `0 → 0`), so the claim predicts the initial
frontier `ε-closure {0}` = `{0}`; the code only falls back to node 0
when the in-degree scratch allocation fails, and with all allocations
succeeding it installs the empty frontier instead. -/
theorem claim_C4_cex :
    lookupT 1 (sandboxInstall allocAll [] blob4).1 = some ⟨1, blob4.edges, 0, ∅⟩ ∧
      epsilon_closure blob4.edges (insert 0 ∅) = insert 0 ∅ ∧
      (∅ : Finset ℕ) ≠ insert 0 ∅ := by
  refine ⟨by decide, by decide, by decide⟩

/-- Claim C4 as amended: on a successful install the initial frontier
is the ε-closure of the set of nodes with non-ε in-degree zero — which
may be empty — and node 0 is used as the start set only when the
in-degree scratch allocation fails. -/
theorem claim_C4_amended_start_set (b : Blob) (tbl : Table)
    (h1 : b.num_nodes ≠ 0) (h2 : b.edges.length ≤ 2 ^ 20) :
    (sandboxInstall allocAll tbl b).2 = InstallRes.ok ∧
      lookupT b.pid (sandboxInstall allocAll tbl b).1 =
        some ⟨b.num_nodes, b.edges, b.id_mode, epsilon_closure b.edges (declStartSet b)⟩ ∧
      lookupT b.pid (sandboxInstall allocNoIndeg tbl b).1 =
        some ⟨b.num_nodes, b.edges, b.id_mode, epsilon_closure b.edges (insert 0 ∅)⟩ := by
  refine ⟨?_, ?_, ?_⟩
  · simp only [sandboxInstall, allocAll]
    rw [if_neg (by omega)]
    simp
  · simp only [sandboxInstall, allocAll, startSet_eq_decl b]
    rw [if_neg (by omega)]
    simp [lookupT]
  · simp only [sandboxInstall, allocNoIndeg]
    rw [if_neg (by omega)]
    simp [lookupT]

/-- Witness for the amended claim C4 at a concrete blob. -/
theorem claim_C4_amended_start_set_witness :
    (sandboxInstall allocAll [] blob4w).2 = InstallRes.ok ∧
      lookupT blob4w.pid (sandboxInstall allocAll [] blob4w).1 =
        some ⟨blob4w.num_nodes, blob4w.edges, blob4w.id_mode,
          epsilon_closure blob4w.edges (declStartSet blob4w)⟩ ∧
      lookupT blob4w.pid (sandboxInstall allocNoIndeg [] blob4w).1 =
        some ⟨blob4w.num_nodes, blob4w.edges, blob4w.id_mode,
          epsilon_closure blob4w.edges (insert 0 ∅)⟩ :=
  claim_C4_amended_start_set blob4w [] (by decide) (by decide)

/-- Claim C6 (code bug): `advance_frontier` starts every step with a
`GFP_ATOMIC` heap allocation of the scratch bitmap; when it fails the
routine returns with the frontier unchanged, so the delivered
observation is dropped.  With `pol6` installed for pid 3, observing the
unknown id 5 must empty the frontier and kill the process (as the
successful-allocation run shows), but under allocation failure
`handler_pre` leaves the table unchanged and delivers no SIGKILL. -/
theorem claim_C6_step_allocates_and_drops_on_failure :
    handler_pre false tbl6 3 5 = (tbl6, false) ∧
      handler_pre true tbl6 3 5 = ([(3, ⟨1, [], 0, ∅⟩)], true) := by
  refine ⟨by decide, by decide⟩

/-! ## Properties of the extraction and instrumentation loop -/

theorem instrCalls_counters (M : Nat) (m : String) :
    ∀ (cs : List String) (k1 k2 k3 : Nat) (ns : List PNode) (ss : List Site),
      (instrCalls M m cs k1 k2 k3 ns ss).1 = k1 + cs.length ∧
      (instrCalls M m cs k1 k2 k3 ns ss).2.1 = k2 + cs.length ∧
      (instrCalls M m cs k1 k2 k3 ns ss).2.2.1 = k3 + cs.length := by
  intro cs
  induction cs with
  | nil =>
    intro k1 k2 k3 ns ss
    simp [instrCalls]
  | cons c t ih =>
    intro k1 k2 k3 ns ss
    simp only [instrCalls]
    obtain ⟨ha, hb, hc⟩ := ih (k1 + 1) (k2 + 1) (k3 + 1) _ _
    refine ⟨?_, ?_, ?_⟩
    · rw [ha]; simp; omega
    · rw [hb]; simp; omega
    · rw [hc]; simp; omega

theorem instrCalls_get (M : Nat) (m : String) :
    ∀ (cs : List String) (k : Nat) (ns : List PNode) (ss : List Site) (j : Nat),
      ((instrCalls M m cs k k k ns ss).2.2.2.1).get? j =
        if k ≤ j ∧ j < k + cs.length then
          (ns.get? j).map
            (fun n => ⟨n.pretty, ((j % M : Nat) : Int), ((j + 1 : Nat) : Int)⟩)
        else ns.get? j := by
  intro cs
  induction cs with
  | nil =>
    intro k ns ss j
    have hc : ¬ (k ≤ j ∧ j < k + ([] : List String).length) := by simp
    simp only [instrCalls, if_neg hc]
  | cons c t ih =>
    intro k ns ss j
    simp only [instrCalls]
    rw [ih]
    by_cases hj : j = k
    · subst hj
      have h1 : ¬ (j + 1 ≤ j ∧ j < j + 1 + t.length) := by omega
      have h2 : j ≤ j ∧ j < j + (c :: t).length := by simp
      rw [if_neg h1, if_pos h2]
      simp only [List.get?_eq_getElem?, List.getElem?_set_self']
      cases hnk : ns[j]? with
      | none => rfl
      | some nk =>
        simp [Function.const, hnk]
    · have hset : (ns.set k ⟨(ns.getD k ⟨"", -1, -1⟩).pretty, ((k % M : Nat) : Int),
          ((k + 1 : Nat) : Int)⟩).get? j = ns.get? j := by
        simp only [List.get?_eq_getElem?]
        exact List.getElem?_set_ne (fun hq => hj hq.symm)
      by_cases hc : k + 1 ≤ j ∧ j < k + 1 + t.length
      · rw [if_pos hc, if_pos (by simp; omega), hset]
      · rw [if_neg hc, if_neg (by simp; omega), hset]

theorem instrGo_get (M : Nat) (m : String) :
    ∀ (bs : List BBlock) (k : Nat) (ns : List PNode) (ss : List Site) (j : Nat),
      ((instrGo M m bs k k k ns ss).1).get? j =
        if k ≤ j ∧ j < k + (bs.map (fun b => b.calls.length)).sum then
          (ns.get? j).map
            (fun n => ⟨n.pretty, ((j % M : Nat) : Int), ((j + 1 : Nat) : Int)⟩)
        else ns.get? j := by
  intro bs
  induction bs with
  | nil =>
    intro k ns ss j
    have hc : ¬ (k ≤ j ∧
        j < k + (([] : List BBlock).map (fun bb : BBlock => bb.calls.length)).sum) := by
      simp
    simp only [instrGo, if_neg hc]
  | cons b bs ih =>
    intro k ns ss j
    simp only [instrGo]
    obtain ⟨h1, h2, h3⟩ := instrCalls_counters M m b.calls k k k ns ss
    rw [h1, h2, h3, ih]
    rw [instrCalls_get M m b.calls k ns ss j]
    by_cases ha : k ≤ j ∧ j < k + b.calls.length
    · have hb : ¬ (k + b.calls.length ≤ j ∧
          j < k + b.calls.length + (bs.map (fun bb : BBlock => bb.calls.length)).sum) := by
        omega
      rw [if_neg hb, if_pos ha, if_pos (by simp; omega)]
    · by_cases hb : k + b.calls.length ≤ j ∧
          j < k + b.calls.length + (bs.map (fun bb : BBlock => bb.calls.length)).sum
      · rw [if_pos hb, if_neg ha, if_pos (by simp; omega)]
      · rw [if_neg hb, if_neg ha, if_neg (by simp; omega)]

theorem buildNodes_length (f : Fn) : (buildNodes f).length = totalCalls f := by
  simp [buildNodes, totalCalls, List.map_map, Function.comp_def]

theorem instr_nodes_mode_free (f : Fn) (M : Nat) (m₁ m₂ : String) :
    (instrGo M m₁ f.blocks 0 0 0 (buildNodes f) []).1 =
      (instrGo M m₂ f.blocks 0 0 0 (buildNodes f) []).1 := by
  rw [List.ext_get?_iff]
  intro j
  rw [instrGo_get M m₁ f.blocks 0 (buildNodes f) [] j,
    instrGo_get M m₂ f.blocks 0 (buildNodes f) [] j]

/-- Claim C7: the artifact of a function records both the dummy
identifier (`i % M`) and the unique identifier (`i + 1`) of every call
site `i` in its node arrays, and the enforcement-relevant fields of the
artifact (node labels, both node-id arrays, and the edge array with its
`matchDummy`/`matchUnique` pairs) are identical whichever id-mode the
pass was run with — so either identifier mode can be enforced from the
same artifact. -/
theorem claim_C7_both_ids_recorded (f : Fn) (M : Nat) (m₁ m₂ : String) (i : Nat)
    (h : i < totalCalls f) :
    ((buildFuncPol f M m₁).nodeLabels = (buildFuncPol f M m₂).nodeLabels ∧
      (buildFuncPol f M m₁).nodeDummyIDs = (buildFuncPol f M m₂).nodeDummyIDs ∧
      (buildFuncPol f M m₁).nodeUniqueIDs = (buildFuncPol f M m₂).nodeUniqueIDs ∧
      (buildFuncPol f M m₁).edges = (buildFuncPol f M m₂).edges) ∧
      (buildFuncPol f M m₁).nodeDummyIDs.get? i = some ((i % M : Nat) : Int) ∧
      (buildFuncPol f M m₁).nodeUniqueIDs.get? i = some ((i + 1 : Nat) : Int) := by
  have hmode := instr_nodes_mode_free f M m₁ m₂
  have hget := instrGo_get M m₁ f.blocks 0 (buildNodes f) [] i
  have hcond : 0 ≤ i ∧ i < 0 + (f.blocks.map (fun b => b.calls.length)).sum := by
    constructor
    · omega
    · have : totalCalls f = (f.blocks.map (fun b => b.calls.length)).sum := rfl
      omega
  rw [if_pos hcond] at hget
  have hlen : i < (buildNodes f).length := by rw [buildNodes_length f]; exact h
  have hsome : ∃ nd, (buildNodes f).get? i = some nd := by
    rw [List.get?_eq_getElem?]
    exact ⟨(buildNodes f)[i], List.getElem?_eq_getElem hlen⟩
  obtain ⟨nd, hnd⟩ := hsome
  rw [hnd] at hget
  refine ⟨⟨?_, ?_, ?_, ?_⟩, ?_, ?_⟩
  · simp only [buildFuncPol, hmode]
  · simp only [buildFuncPol, hmode]
  · simp only [buildFuncPol, hmode]
  · simp only [buildFuncPol, hmode]
  · simp only [buildFuncPol, List.get?_eq_getElem?, List.getElem?_map]
    rw [← List.get?_eq_getElem?, hget]
    rfl
  · simp only [buildFuncPol, List.get?_eq_getElem?, List.getElem?_map]
    rw [← List.get?_eq_getElem?, hget]
    rfl

/-- Witness for claim C7: the three-call function `fnORC` under the two
modes. -/
theorem claim_C7_both_ids_recorded_witness :
    ((buildFuncPol fnORC 200 "dummy").nodeLabels =
        (buildFuncPol fnORC 200 "unique").nodeLabels ∧
      (buildFuncPol fnORC 200 "dummy").nodeDummyIDs =
        (buildFuncPol fnORC 200 "unique").nodeDummyIDs ∧
      (buildFuncPol fnORC 200 "dummy").nodeUniqueIDs =
        (buildFuncPol fnORC 200 "unique").nodeUniqueIDs ∧
      (buildFuncPol fnORC 200 "dummy").edges =
        (buildFuncPol fnORC 200 "unique").edges) ∧
      (buildFuncPol fnORC 200 "dummy").nodeDummyIDs.get? 1 = some ((1 % 200 : Nat) : Int) ∧
      (buildFuncPol fnORC 200 "dummy").nodeUniqueIDs.get? 1 = some ((1 + 1 : Nat) : Int) :=
  claim_C7_both_ids_recorded fnORC 200 "dummy" "unique" 1 (by decide)

/-- Counterexample to claim C5: in `fn0`, block 0 calls `f`, its only
successor block 1 has no calls, and block 1's successor block 2 calls
`g`; the pass only links directly adjacent blocks that both contain
calls, so the extracted graph has no edges at all and `g`'s call site is
unreachable from `f`'s — the call-free block is not skipped
transitively. -/
theorem claim_C5_cex :
    callsAt fn0 0 ≠ [] ∧ callsAt fn0 1 = [] ∧ callsAt fn0 2 ≠ [] ∧
      (fn0.blocks.getD 0 ⟨[], []⟩).succs = [1] ∧
      (fn0.blocks.getD 1 ⟨[], []⟩).succs = [2] ∧
      buildPEdges fn0 = [] ∧
      ¬ Reach (buildPEdges fn0) (blockExit fn0 0) (blockEntry fn0 2) := by
  refine ⟨by decide, by decide, by decide, by decide, by decide, by decide, ?_⟩
  intro h
  have hE : buildPEdges fn0 = [] := by decide
  rw [hE] at h
  have hne : blockExit fn0 0 ≠ blockEntry fn0 2 := by decide
  rcases h.cases_head with heq | ⟨c, ⟨e, he, _⟩, _⟩
  · exact hne heq
  · exact absurd he (List.not_mem_nil e)

/-- Claim C5 as amended: ε edges are only added between a block with
calls and its *immediate* successors with calls (call-free blocks are
never skipped, as the counterexample shows); moreover the recorded
destination is the successor's first call site only when the successor
has already been visited by the `bbMap` iteration (`s ≤ i` in the
model's iteration order) — a later successor still carries the unset
`SIZE_MAX` sentinel as `entryNode` when the edge is emitted. -/
theorem claim_C5_amended_adjacent_eps (f : Fn) (i s : Nat) (bi bs : BBlock)
    (hi : f.blocks.get? i = some bi) (hs : f.blocks.get? s = some bs)
    (hmem : s ∈ bi.succs) (hci : bi.calls ≠ []) (hcs : bs.calls ≠ []) :
    (s ≤ i → (⟨blockExit f i, blockEntry f s, "ϵ"⟩ : PEdge) ∈ buildPEdges f ∧
        Reach (buildPEdges f) (blockExit f i) (blockEntry f s)) ∧
      (i < s → (⟨blockExit f i, sizeMaxC, "ϵ"⟩ : PEdge) ∈ buildPEdges f) := by
  have hil : i < f.blocks.length := by
    rw [List.get?_eq_getElem?] at hi
    exact (List.getElem?_eq_some_iff.mp hi).1
  have hbd : f.blocks.getD i ⟨[], []⟩ = bi := by
    rw [List.getD_eq_getElem?_getD, ← List.get?_eq_getElem?, hi]
    rfl
  have hmm : ∀ d : Nat, (⟨blockExit f i, d, "ϵ"⟩ : PEdge) ∈ epsEdgesOf f i →
      (⟨blockExit f i, d, "ϵ"⟩ : PEdge) ∈ buildPEdges f := by
    intro d hd
    rw [buildPEdges]
    rw [List.mem_flatten]
    refine ⟨intraEdges f i ++ epsEdgesOf f i, ?_, List.mem_append_right _ hd⟩
    exact List.mem_map.mpr ⟨i, List.mem_range.mpr hil, rfl⟩
  have heps : ∀ d : Nat, d = (if s ≤ i then blockEntry f s else sizeMaxC) →
      (⟨blockExit f i, d, "ϵ"⟩ : PEdge) ∈ epsEdgesOf f i := by
    intro d hd
    rw [epsEdgesOf, callsAt, hbd, if_neg hci]
    refine List.mem_filterMap.mpr ⟨s, hmem, ?_⟩
    rw [hs]
    simp only [if_neg hcs]
    rw [hd]
  constructor
  · intro hle
    have hmem1 := hmm (blockEntry f s) (heps _ (by rw [if_pos hle]))
    exact ⟨hmem1, Relation.ReflTransGen.single ⟨_, hmem1, rfl, rfl⟩⟩
  · intro hlt
    exact hmm sizeMaxC (heps _ (by rw [if_neg (by omega)]))

/-- Witness for the amended claim C5: the self-looping block of `fnW`
(successor `s = i = 0`, already visited when the ε edge is emitted)
yields the ε edge from its last call site back to its first. -/
theorem claim_C5_amended_adjacent_eps_witness :
    (⟨blockExit fnW 0, blockEntry fnW 0, "ϵ"⟩ : PEdge) ∈ buildPEdges fnW ∧
      Reach (buildPEdges fnW) (blockExit fnW 0) (blockEntry fnW 0) :=
  (claim_C5_amended_adjacent_eps fnW 0 0 ⟨["a", "b"], [0]⟩ ⟨["a", "b"], [0]⟩
    rfl rfl (by decide) (by decide) (by decide)).1 (Nat.le_refl 0)

/-! ## Properties of the artifact parser -/

theorem dropWhile_replicate_space (k : Nat) (rest : List Char) :
    (List.replicate k ' ' ++ rest).dropWhile (fun c => isSpaceC c) =
      rest.dropWhile (fun c => isSpaceC c) := by
  induction k with
  | zero => rfl
  | succ k ih =>
    rw [List.replicate_succ, List.cons_append,
      List.dropWhile_cons_of_pos (by decide), ih]

set_option maxRecDepth 100000 in
/-- Claim C10: on a serializer-produced artifact with exactly one
function (here the one for `fnORC`), selecting function index 0 makes
`extract_graph_edges` fail — `"nodeLabels":` is searched for *after*
the selected function's `"edges":` key, where the only function's
`nodeLabels` array (which precedes its edges array in the artifact)
never occurs — and `main` then exits with status 1. -/
theorem claim_C10_single_function_extract_fails :
    extractGraphEdges artifactOne.toList 0 0 = none ∧
      loaderParseExit artifactOne.toList 0 0 = 1 := by
  refine ⟨by decide, by decide⟩

set_option maxRecDepth 100000 in
/-- Counterexample to claim C8: `artifactTwoA` and `artifactTwoB`
differ only in whitespace (two spaces inside the second function's
empty `nodeLabels` array), yet selecting function 0 yields install
blobs with `num_nodes = 0` and `num_nodes = 1` respectively: the node
count is taken as `commas + 1` whenever the bracket span is wider than
two characters, so `[  ]` counts as one node while `[]` counts as
zero. -/
theorem claim_C8_cex :
    stripWS artifactTwoA.toList = stripWS artifactTwoB ∧
      artifactTwoA.toList ≠ artifactTwoB ∧
      (extractGraphEdges artifactTwoA.toList 0 0).map (fun b => b.numNodes) = some 0 ∧
      (extractGraphEdges artifactTwoB 0 0).map (fun b => b.numNodes) = some 1 := by
  refine ⟨by decide, by decide, by decide, by decide⟩

/-- Claim C8 as amended: blob construction is not invariant under all
whitespace changes (the counterexample's empty `nodeLabels` array), but
the individual field values are: the value scanner of `find_value`
skips any run of spaces between a key's colon and its value, so such
whitespace never changes a parsed field. -/
theorem claim_C8_amended_value_ws (k : Nat) (rest : List Char) :
    valueScan (List.replicate k ' ' ++ rest) = valueScan rest := by
  rw [valueScan, valueScan, dropWhile_replicate_space]

end Sandbox
